import Mathlib

/-!
Verification of the versioned model storage engine of the api_trct
repository, centred on `FilesystemModelStorage`
(src/storage/filesystem_storage.py) and the statistical anomaly model
(src/anomaly_models/statistical_model.py).

The filesystem is embedded as association lists from file-name stems to
file contents; a series directory keeps the `*.bin` payload files and the
`*.meta.json` metadata files in two maps keyed by stem, mirroring the
two filename namespaces used by the Python code.  Operations run the body
that the code executes while holding the per-key `FileLock`; lock
acquisition failure is modelled only where a claim is about it
(`model_exists`, which swallows it).  Python decimal-digit strings are
modelled over ASCII digits.
-/

namespace ApiTrct

/-- A directory listing: file-name stem to content, no duplicate keys in
reachable states. -/
abbrev AList (α : Type) := List (String × α)

/-- Lookup by file name, mirroring opening a file in a directory. -/
def alookup {α : Type} : AList α → String → Option α
  | [], _ => none
  | (k, v) :: t, key => if k = key then some v else alookup t key

/-- Create-or-replace a file, the net effect of `os.replace` onto a target. -/
def aset {α : Type} : AList α → String → α → AList α
  | [], key, val => [(key, val)]
  | (k, v) :: t, key, val =>
      if k = key then (key, val) :: t else (k, v) :: aset t key val

/-- Delete a file (`os.unlink`). -/
def aerase {α : Type} : AList α → String → AList α
  | [], _ => []
  | (k, v) :: t, key => if k = key then aerase t key else (k, v) :: aerase t key

/-- The file names of a directory, as enumerated by `glob`. -/
def akeys {α : Type} (l : AList α) : List String := l.map Prod.fst

@[simp] theorem akeys_nil {α : Type} : akeys ([] : AList α) = [] := rfl

@[simp] theorem akeys_cons {α : Type} (a : String) (b : α) (t : AList α) :
    akeys ((a, b) :: t) = a :: akeys t := rfl

theorem alookup_aset_self {α : Type} (l : AList α) (k : String) (v : α) :
    alookup (aset l k v) k = some v := by
  induction l with
  | nil => simp [aset, alookup]
  | cons p t ih =>
    obtain ⟨a, b⟩ := p
    by_cases h : a = k
    · simp [aset, h, alookup]
    · simp [aset, h, alookup, ih]

theorem alookup_aset_ne {α : Type} (l : AList α) (k k2 : String) (v : α)
    (h : k2 ≠ k) : alookup (aset l k v) k2 = alookup l k2 := by
  have hk : ¬ k = k2 := fun hh => h hh.symm
  induction l with
  | nil => simp [aset, alookup, hk]
  | cons p t ih =>
    obtain ⟨a, b⟩ := p
    by_cases hp : a = k
    · subst hp
      simp [aset, alookup, hk]
    · by_cases hp2 : a = k2
      · simp [aset, hp, alookup, hp2, h]
      · simp [aset, hp, alookup, hp2, ih]

theorem mem_akeys_of_alookup {α : Type} (l : AList α) (k : String) (v : α)
    (h : alookup l k = some v) : k ∈ akeys l := by
  induction l with
  | nil => simp [alookup] at h
  | cons p t ih =>
    obtain ⟨a, b⟩ := p
    by_cases hp : a = k
    · simp [hp]
    · simp [alookup, hp] at h
      simp [ih h]

theorem alookup_eq_none_of_not_mem {α : Type} (l : AList α) (k : String)
    (h : k ∉ akeys l) : alookup l k = none := by
  induction l with
  | nil => simp [alookup]
  | cons p t ih =>
    obtain ⟨a, b⟩ := p
    simp at h
    push_neg at h
    have ha : ¬ a = k := fun hh => h.1 hh.symm
    simp [alookup, ha, ih h.2]

theorem akeys_aset_mem {α : Type} (l : AList α) (k : String) (v : α)
    (h : k ∈ akeys l) : akeys (aset l k v) = akeys l := by
  induction l with
  | nil => simp at h
  | cons p t ih =>
    obtain ⟨a, b⟩ := p
    by_cases hp : a = k
    · simp [aset, hp]
    · simp at h
      rcases h with h | h
      · exact absurd h.symm hp
      · simp [aset, hp, ih h]

theorem aset_eq_append_of_not_mem {α : Type} (l : AList α) (k : String)
    (v : α) (h : k ∉ akeys l) : aset l k v = l ++ [(k, v)] := by
  induction l with
  | nil => simp [aset]
  | cons p t ih =>
    obtain ⟨a, b⟩ := p
    simp at h
    push_neg at h
    have ha : ¬ a = k := fun hh => h.1 hh.symm
    simp [aset, ha, ih h.2]

theorem akeys_aset_not_mem {α : Type} (l : AList α) (k : String) (v : α)
    (h : k ∉ akeys l) : akeys (aset l k v) = akeys l ++ [k] := by
  rw [aset_eq_append_of_not_mem l k v h]
  simp [akeys]

theorem aerase_aset_fresh {α : Type} (l : AList α) (k : String) (v : α)
    (h : k ∉ akeys l) : aerase (aset l k v) k = l := by
  induction l with
  | nil => simp [aset, aerase]
  | cons p t ih =>
    obtain ⟨a, b⟩ := p
    simp at h
    push_neg at h
    have ha : ¬ a = k := fun hh => h.1 hh.symm
    simp [aset, ha, aerase, ih h.2]

theorem alookup_aerase {α : Type} (l : AList α) (k n : String) :
    alookup (aerase l k) n = if n = k then none else alookup l n := by
  induction l with
  | nil => simp [aerase, alookup]
  | cons p t ih =>
    obtain ⟨a, b⟩ := p
    by_cases hak : a = k
    · subst hak
      by_cases hnk : n = a
      · subst hnk
        simp [aerase, alookup, ih]
      · have h1 : ¬ a = n := fun hh => hnk hh.symm
        simp [aerase, alookup, hnk, h1, ih]
    · by_cases hnk : n = k
      · subst hnk
        simp [aerase, hak, alookup, ih]
      · by_cases han : a = n
        · simp [aerase, hak, alookup, han, hnk]
        · simp [aerase, hak, alookup, han, hnk, ih]

/-! Decimal digit strings: Python `str.isdigit` (ASCII fragment), `int()`
parsing after `lstrip('v')`, and f-string decimal printing. -/

/-- One character of Python `str.isdigit`, restricted to ASCII digits. -/
def pyIsDigit (c : Char) : Bool := 48 ≤ c.toNat && c.toNat ≤ 57

/-- Value of a digit string, the `int()` of a string of ASCII digits. -/
def digitsToNat (l : List Char) : Nat :=
  l.foldl (fun a c => a * 10 + (c.toNat - 48)) 0

/-- Fuel-driven digit accumulator; the fuel always suffices when it
exceeds the number. -/
def natDigitsCore : Nat → Nat → List Char → List Char
  | 0, _, acc => acc
  | fuel + 1, n, acc =>
    if n < 10 then Nat.digitChar n :: acc
    else natDigitsCore fuel (n / 10) (Nat.digitChar (n % 10) :: acc)

/-- Decimal digits of a number, most significant first, as produced by
Python decimal formatting in an f-string. -/
def natDigits (n : Nat) : List Char := natDigitsCore (n + 1) n []

theorem digitChar_toNat {d : Nat} (_h : d < 10) :
    (Nat.digitChar d).toNat = 48 + d := by
  interval_cases d <;> rfl

theorem pyIsDigit_digitChar {d : Nat} (_h : d < 10) :
    pyIsDigit (Nat.digitChar d) = true := by
  interval_cases d <;> rfl

theorem foldl_digits_go (l : List Char) (a : Nat) :
    l.foldl (fun a c => a * 10 + (c.toNat - 48)) a =
      a * 10 ^ l.length + digitsToNat l := by
  induction l generalizing a with
  | nil => simp [digitsToNat]
  | cons c t ih =>
    simp only [List.foldl_cons, digitsToNat] at *
    rw [ih, ih (0 * 10 + (c.toNat - 48))]
    simp [List.length_cons, pow_succ]
    ring

theorem digitsToNat_append (l : List Char) (c : Char) :
    digitsToNat (l ++ [c]) = digitsToNat l * 10 + (c.toNat - 48) := by
  simp only [digitsToNat, List.foldl_append, List.foldl_cons, List.foldl_nil]

theorem natDigitsCore_spec :
    ∀ (fuel n : Nat) (acc : List Char), n < fuel →
      ∃ pre, natDigitsCore fuel n acc = pre ++ acc ∧ pre ≠ [] ∧
        (∀ c ∈ pre, pyIsDigit c = true) ∧ digitsToNat pre = n := by
  intro fuel
  induction fuel with
  | zero => intro n acc h; omega
  | succ fuel ih =>
    intro n acc h
    by_cases h10 : n < 10
    · refine ⟨[Nat.digitChar n], ?_, by simp, ?_, ?_⟩
      · simp [natDigitsCore, h10]
      · simp [pyIsDigit_digitChar h10]
      · simp [digitsToNat, digitChar_toNat h10]
    · have hdiv : n / 10 < n := Nat.div_lt_self (by omega) (by norm_num)
      have hfuel : n / 10 < fuel := by omega
      rcases ih (n / 10) (Nat.digitChar (n % 10) :: acc) hfuel with
        ⟨pre2, heq, hne, hdig, hval⟩
      refine ⟨pre2 ++ [Nat.digitChar (n % 10)], ?_, by simp [hne], ?_, ?_⟩
      · rw [natDigitsCore]
        simp only [h10, if_false]
        rw [heq, List.append_assoc]
        rfl
      · intro c hc
        rcases List.mem_append.mp hc with hc | hc
        · exact hdig c hc
        · simp at hc
          rw [hc]
          exact pyIsDigit_digitChar (Nat.mod_lt n (by norm_num))
      · rw [digitsToNat_append, hval,
          digitChar_toNat (Nat.mod_lt n (by norm_num))]
        omega

theorem natDigits_spec (n : Nat) :
    natDigits n ≠ [] ∧ (∀ c ∈ natDigits n, pyIsDigit c = true) ∧
      digitsToNat (natDigits n) = n := by
  rcases natDigitsCore_spec (n + 1) n [] (by omega) with
    ⟨pre, heq, hne, hdig, hval⟩
  rw [List.append_nil] at heq
  unfold natDigits
  rw [heq]
  exact ⟨hne, hdig, hval⟩

theorem digitsToNat_natDigits (n : Nat) : digitsToNat (natDigits n) = n :=
  (natDigits_spec n).2.2

theorem natDigits_all_digit (n : Nat) :
    ∀ c ∈ natDigits n, pyIsDigit c = true :=
  (natDigits_spec n).2.1

theorem natDigits_ne_nil (n : Nat) : natDigits n ≠ [] :=
  (natDigits_spec n).1

theorem pyIsDigit_ne_v {c : Char} (h : pyIsDigit c = true) : ¬ (c = 'v') := by
  intro hc
  rw [hc] at h
  simp [pyIsDigit] at h

/-! Version strings.  The code names artifact files `v<number>.bin` and
filters directory entries with `name.startswith("v") and name[1:].isdigit()`;
numeric order is taken through `int(name.lstrip('v'))`. -/

/-- The version-name filter of `_list_versions`:
`name.startswith("v") and name[1:].isdigit()`. -/
def isVersionName (s : String) : Bool :=
  match s.data with
  | [] => false
  | c :: rest => c = 'v' && !rest.isEmpty && rest.all pyIsDigit

/-- Numeric part of a version string: `int(name.lstrip('v'))`.
`lstrip('v')` drops every leading `'v'`; on the digit-only tails produced
by `isVersionName` this is the part after the single leading `'v'`. -/
def versionNum (s : String) : Nat :=
  digitsToNat (s.data.dropWhile (fun c => c = 'v'))

/-- The version string `f"v{n}"` written by `_generate_version`. -/
def versionString (n : Nat) : String := String.mk ('v' :: natDigits n)

theorem versionNum_versionString (n : Nat) :
    versionNum (versionString n) = n := by
  unfold versionNum versionString
  have hdata : (String.mk ('v' :: natDigits n)).data = 'v' :: natDigits n := rfl
  rw [hdata]
  have h1 : List.dropWhile (fun c => decide (c = 'v')) ('v' :: natDigits n) =
      List.dropWhile (fun c => decide (c = 'v')) (natDigits n) := by
    simp [List.dropWhile]
  rw [h1]
  have h2 : List.dropWhile (fun c => decide (c = 'v')) (natDigits n) = natDigits n := by
    cases hd : natDigits n with
    | nil => simp
    | cons c t =>
      have hc : pyIsDigit c = true := by
        apply natDigits_all_digit n
        rw [hd]
        exact List.mem_cons_self c t
      simp [List.dropWhile, pyIsDigit_ne_v hc]
  rw [h2]
  exact digitsToNat_natDigits n

theorem isVersionName_versionString (n : Nat) :
    isVersionName (versionString n) = true := by
  unfold isVersionName versionString
  have hdata : (String.mk ('v' :: natDigits n)).data = 'v' :: natDigits n := rfl
  rw [hdata]
  simp [natDigits_ne_nil n, List.isEmpty_iff]
  exact natDigits_all_digit n

/-- Numeric order on version names, the `sorted` key of `_list_versions`. -/
def versionLe (a b : String) : Prop := versionNum a ≤ versionNum b

instance : DecidableRel versionLe :=
  fun a b => decidable_of_iff (versionNum a ≤ versionNum b) Iff.rfl

instance : IsTotal String versionLe := ⟨fun a b => Nat.le_total _ _⟩

instance : IsTrans String versionLe := ⟨fun _ _ _ h1 h2 => Nat.le_trans h1 h2⟩

theorem le_getLast_of_sorted (l : List String) :
    l.Sorted versionLe →
      ∀ a ∈ l, ∀ h : l ≠ [], versionNum a ≤ versionNum (l.getLast h) := by
  induction l with
  | nil =>
    intro _ a ha
    simp at ha
  | cons x t ih =>
    intro hs a ha hne
    rcases List.sorted_cons.mp hs with ⟨hx, ht⟩
    cases t with
    | nil =>
      have hax : a = x := by simpa using ha
      rw [hax]
      exact Nat.le_refl _
    | cons y t2 =>
      rw [List.getLast_cons (List.cons_ne_nil y t2)]
      rcases List.mem_cons.mp ha with hax | hat
      · rw [hax]
        exact hx _ (List.getLast_mem (List.cons_ne_nil y t2))
      · exact ih ht a hat (List.cons_ne_nil y t2)

/-! The statistical anomaly model
(src/anomaly_models/statistical_model.py).  Python float values are
abstracted as rationals; `None` for the untrained `mean`/`std` is
`Option`. -/

/-- A data point (src/models/schemas.py `DataPoint`). -/
structure DataPoint where
  timestamp : Int
  value : ℚ
deriving DecidableEq

/-- The JSON object written by `StatisticalAnomalyModel.save`:
threshold, mean and std (JSON `null` allowed for the latter two). -/
structure SerializedModel where
  threshold : ℚ
  mean : Option ℚ
  std : Option ℚ
deriving DecidableEq

/-- In-memory state of `StatisticalAnomalyModel`: the `threshold`
constructor argument, the `mean`/`std` attributes (None before `fit`)
and the `_is_fitted` flag. -/
structure StatisticalAnomalyModel where
  threshold : ℚ
  mean : Option ℚ
  std : Option ℚ
  fitted : Bool
deriving DecidableEq

namespace StatisticalAnomalyModel

/-- The fresh model built by `StatisticalAnomalyModel(threshold=3.0)`,
as instantiated by `ModelFactory.create`. -/
def init : StatisticalAnomalyModel :=
  { threshold := 3, mean := none, std := none, fitted := false }

/-- Method `is_fitted`. -/
def is_fitted (m : StatisticalAnomalyModel) : Bool := m.fitted

/-- Method `get_model_type`. -/
def get_model_type (_m : StatisticalAnomalyModel) : String := "statistical"

/-- Method `predict`: `data_point.value > self.mean + self.threshold *
self.std`.  `none` models the `TypeError` raised when `mean` or `std` is
still `None`. -/
def predict (m : StatisticalAnomalyModel) (p : DataPoint) : Option Bool :=
  match m.mean, m.std with
  | some mu, some sd => some (decide (p.value > mu + m.threshold * sd))
  | _, _ => none

end StatisticalAnomalyModel

/-- Errors surfaced by the storage engine.  `unfittedModel` is the
`ValueError` for saving or serializing an unfitted model, `notFound` the
`FileNotFoundError`, `corruptedMetadata` the `ValueError` raised on a
`json.JSONDecodeError`, `unsupportedType` the `ValueError` of
`ModelFactory.create`. -/
inductive StorageError where
  | unfittedModel
  | notFound
  | corruptedMetadata
  | unsupportedType
deriving DecidableEq

namespace StatisticalAnomalyModel

/-- Method `save`: serializes threshold, mean and std to JSON, raising
`ValueError` when not fitted. -/
def save (m : StatisticalAnomalyModel) : Except StorageError SerializedModel :=
  if m.fitted then Except.ok { threshold := m.threshold, mean := m.mean, std := m.std }
  else Except.error StorageError.unfittedModel

/-- Method `load`: restores threshold, mean and std from the serialized
JSON and marks the model fitted. -/
def load (m : StatisticalAnomalyModel) (s : SerializedModel) :
    StatisticalAnomalyModel :=
  { m with threshold := s.threshold, mean := s.mean, std := s.std, fitted := true }

end StatisticalAnomalyModel

/-- Dispatch of `ModelFactory.create` on the persisted `model_type` tag
(src/anomaly_models/model_factory.py).  Only the statistical variant is
embedded here; the claims under verification involve no other variant,
so every other tag is mapped to the unsupported-type `ValueError` that
the factory raises for tags outside its registry. -/
def modelFactoryCreate (tag : String) :
    Except StorageError StatisticalAnomalyModel :=
  if tag = "statistical" then Except.ok StatisticalAnomalyModel.init
  else Except.error StorageError.unsupportedType

/-! The filesystem layout of `FilesystemModelStorage`: one directory per
series key holding `<version>.bin` payload files and
`<version>.meta.json` metadata files.  The two extensions never collide,
so a series directory is embedded as two maps keyed by stem. -/

/-- The JSON metadata written next to a payload. -/
structure Metadata where
  series_id : String
  version : String
  model_type : String
  saved_at : String
deriving DecidableEq

/-- A metadata file on disk: parseable JSON, or bytes on which
`json.load` raises `JSONDecodeError`. -/
inductive MetaFile where
  | parsed (md : Metadata)
  | corrupt
deriving DecidableEq

/-- One series directory: the `*.bin` files and the `*.meta.json` files,
each keyed by stem. -/
structure SeriesDir where
  bins : AList SerializedModel
  metas : AList MetaFile
deriving DecidableEq

/-- The storage root: series directories keyed by series id. -/
structure Storage where
  series : AList SeriesDir
deriving DecidableEq

def emptyDir : SeriesDir := { bins := [], metas := [] }

/-- Effect of `_get_series_dir` for reading: a missing directory is
indistinguishable from the empty directory it would create. -/
def getDir (st : Storage) (k : String) : SeriesDir :=
  (alookup st.series k).getD emptyDir

def setDir (st : Storage) (k : String) (d : SeriesDir) : Storage :=
  { series := aset st.series k d }

theorem getDir_setDir_self (st : Storage) (k : String) (d : SeriesDir) :
    getDir (setDir st k d) k = d := by
  simp [getDir, setDir, alookup_aset_self]

theorem getDir_setDir_ne (st : Storage) (k k2 : String) (d : SeriesDir)
    (h : k2 ≠ k) : getDir (setDir st k d) k2 = getDir st k2 := by
  simp [getDir, setDir, alookup_aset_ne st.series k k2 d h]

/-- The body of `_list_versions`: glob the `*.bin` stems, keep the
names matching `v<digits>`, and sort them by `int(name.lstrip('v'))`. -/
def listVersionsAux (d : SeriesDir) : List String :=
  List.insertionSort versionLe ((akeys d.bins).filter isVersionName)

/-- Public `list_versions` (taken under the per-series lock). -/
def list_versions (st : Storage) (k : String) : List String :=
  listVersionsAux (getDir st k)

/-- Public `get_latest_version`: `versions[-1] if versions else None`. -/
def get_latest_version (st : Storage) (k : String) : Option String :=
  (list_versions st k).getLast?

/-- The body of `_generate_version`: `"v0"` when no versions exist,
else `f"v{int(versions[-1].lstrip('v')) + 1}"`. -/
def generate_version (d : SeriesDir) : String :=
  match (listVersionsAux d).getLast? with
  | none => "v0"
  | some latest => versionString (versionNum latest + 1)

/-- The atomic write of `_atomic_write_bytes` / `_atomic_write_json`:
`mkstemp` a fresh temp file in the target directory, write the data,
`os.replace` it onto the target.  `failBeforeRename` injects a failure
of any step before the rename, after which the temp file is unlinked and
the exception re-raised (the error result carries the directory as left
on disk). -/
def atomic_write {α : Type} (dir : AList α) (tmpName target : String)
    (data : α) (failBeforeRename : Bool) :
    Except (AList α) (AList α) :=
  let dir1 := aset dir tmpName data
  if failBeforeRename then Except.error (aerase dir1 tmpName)
  else Except.ok (aerase (aset dir1 target data) tmpName)

/-- `save_model`: reject unfitted models, then under the per-key lock
allocate a version when none is given, serialize, and atomically commit
the payload and then the metadata.  The returned storage is the state
after the call (unchanged when the unfitted `ValueError` is raised
before any write).  Each atomic write is represented by its committed
effect `aset` (theorem `atomic_write_commits` relates `atomic_write` on
a fresh temp name to exactly this effect). -/
def save_model (st : Storage) (series_id : String)
    (model : StatisticalAnomalyModel) (version : Option String)
    (now : String) : Except StorageError String × Storage :=
  if model.is_fitted = false then
    (Except.error StorageError.unfittedModel, st)
  else
    let d := getDir st series_id
    let v := version.getD (generate_version d)
    match model.save with
    | Except.error e => (Except.error e, st)
    | Except.ok payload =>
      let md : Metadata :=
        { series_id := series_id, version := v,
          model_type := model.get_model_type, saved_at := now }
      let d2 : SeriesDir :=
        { bins := aset d.bins v payload,
          metas := aset d.metas v (MetaFile.parsed md) }
      (Except.ok v, setDir st series_id d2)

/-- Version resolution of `load_model`: an explicit version is taken as
given; otherwise `versions[-1]`, with `FileNotFoundError` when there are
none. -/
def resolveVersion (d : SeriesDir) : Option String → Except StorageError String
  | some v => Except.ok v
  | none =>
    match (listVersionsAux d).getLast? with
    | some v => Except.ok v
    | none => Except.error StorageError.notFound

/-- The body of `load_model` after version resolution: open and parse
the metadata (`FileNotFoundError` when absent, `ValueError` on a
`json.JSONDecodeError`), read the payload bytes (`FileNotFoundError`
when absent), then build the model through `ModelFactory.create` on the
recorded `model_type` and hydrate it with `load`. -/
def loadResolved (d : SeriesDir) (v : String) :
    Except StorageError (StatisticalAnomalyModel × String) :=
  match alookup d.metas v with
  | none => Except.error StorageError.notFound
  | some MetaFile.corrupt => Except.error StorageError.corruptedMetadata
  | some (MetaFile.parsed md) =>
    match alookup d.bins v with
    | none => Except.error StorageError.notFound
    | some payload =>
      match modelFactoryCreate md.model_type with
      | Except.error e => Except.error e
      | Except.ok m0 => Except.ok (m0.load payload, v)

/-- `load_model`: under the per-key lock resolve the version, then load
metadata, payload and model. -/
def load_model (st : Storage) (series_id : String)
    (version : Option String) :
    Except StorageError (StatisticalAnomalyModel × String) :=
  match resolveVersion (getDir st series_id) version with
  | Except.error e => Except.error e
  | Except.ok v => loadResolved (getDir st series_id) v

/-- A failure raised inside the `try` block of `model_exists`: the lock
timeout (`filelock.Timeout`, an `OSError`), another `OSError`/`IOError`,
or a `ValueError` — exactly the classes its `except` clause catches. -/
inductive IOFailure where
  | lockTimeout
  | osError
  | valueError
deriving DecidableEq

/-- The `try` body of `model_exists`: resolve the latest version when
none is given, then test `model_path.exists()`.  `inj` injects a raised
failure (e.g. a lock timeout) at the start of the block. -/
def model_exists_body (st : Storage) (k : String) (version : Option String)
    (inj : Option IOFailure) : Except IOFailure Bool :=
  match inj with
  | some e => Except.error e
  | none =>
    let d := getDir st k
    match version with
    | none =>
      match (listVersionsAux d).getLast? with
      | none => Except.ok false
      | some v => Except.ok (alookup d.bins v).isSome
    | some v => Except.ok (alookup d.bins v).isSome

/-- Public `model_exists`: the body under `try`, with every caught
failure converted to `False`. -/
def model_exists (st : Storage) (k : String) (version : Option String)
    (inj : Option IOFailure) : Bool :=
  match model_exists_body st k version inj with
  | Except.ok b => b
  | Except.error _ => false

/-! Helper lemmas about the embedded operations. -/

theorem atomic_write_fail {α : Type} (dir : AList α) (tmpName target : String)
    (data : α) (h : tmpName ∉ akeys dir) :
    atomic_write dir tmpName target data true = Except.error dir := by
  unfold atomic_write
  simp [aerase_aset_fresh dir tmpName data h]

theorem atomic_write_commits {α : Type} (dir : AList α)
    (tmpName target : String) (data : α) (h1 : tmpName ∉ akeys dir)
    (h2 : tmpName ≠ target) :
    ∃ dir2, atomic_write dir tmpName target data false = Except.ok dir2 ∧
      ∀ n, alookup dir2 n = alookup (aset dir target data) n := by
  refine ⟨_, rfl, ?_⟩
  intro n
  rw [alookup_aerase]
  by_cases hn : n = tmpName
  · subst hn
    simp
    have hnt : n ≠ target := h2
    rw [alookup_aset_ne _ _ _ _ hnt]
    exact (alookup_eq_none_of_not_mem dir n h1).symm
  · simp [hn]
    by_cases hnt : n = target
    · subst hnt
      rw [alookup_aset_self, alookup_aset_self]
    · rw [alookup_aset_ne _ _ _ _ hnt, alookup_aset_ne _ _ _ _ hnt,
        alookup_aset_ne _ _ _ _ hn]

theorem listVersionsAux_sorted (d : SeriesDir) :
    (listVersionsAux d).Sorted versionLe :=
  List.sorted_insertionSort versionLe _

theorem mem_listVersionsAux (d : SeriesDir) (w : String) :
    w ∈ listVersionsAux d ↔ w ∈ akeys d.bins ∧ isVersionName w = true := by
  unfold listVersionsAux
  rw [List.mem_insertionSort]
  simp [List.mem_filter]

theorem isVersionName_of_mem_listVersionsAux (d : SeriesDir) (w : String)
    (h : w ∈ listVersionsAux d) : isVersionName w = true :=
  ((mem_listVersionsAux d w).mp h).2

theorem versionNum_le_getLast (d : SeriesDir) (h : listVersionsAux d ≠ []) :
    ∀ w ∈ listVersionsAux d,
      versionNum w ≤ versionNum ((listVersionsAux d).getLast h) :=
  fun w hw => le_getLast_of_sorted _ (listVersionsAux_sorted d) w hw h

theorem generate_version_of_empty (d : SeriesDir)
    (h : listVersionsAux d = []) : generate_version d = "v0" := by
  unfold generate_version
  rw [h]
  rfl

theorem generate_version_num (d : SeriesDir) (h : listVersionsAux d ≠ []) :
    versionNum (generate_version d) =
      versionNum ((listVersionsAux d).getLast h) + 1 := by
  unfold generate_version
  rw [List.getLast?_eq_getLast _ h]
  exact versionNum_versionString _

theorem generate_version_gt (d : SeriesDir) :
    ∀ w ∈ listVersionsAux d, versionNum w < versionNum (generate_version d) := by
  intro w hw
  have hne : listVersionsAux d ≠ [] := fun hnil => by
    rw [hnil] at hw
    simp at hw
  rw [generate_version_num d hne]
  exact Nat.lt_succ_of_le (versionNum_le_getLast d hne w hw)

theorem generate_version_not_mem (d : SeriesDir) :
    generate_version d ∉ listVersionsAux d := by
  intro hmem
  exact Nat.lt_irrefl _ (generate_version_gt d _ hmem)

theorem isVersionName_generate_version (d : SeriesDir) :
    isVersionName (generate_version d) = true := by
  unfold generate_version
  cases (listVersionsAux d).getLast? with
  | none => decide
  | some latest => exact isVersionName_versionString _

theorem alookup_exists_of_mem_akeys {α : Type} (l : AList α) (k : String)
    (h : k ∈ akeys l) : ∃ v, alookup l k = some v := by
  induction l with
  | nil => simp at h
  | cons p t ih =>
    obtain ⟨a, b⟩ := p
    by_cases ha : a = k
    · exact ⟨b, by simp [alookup, ha]⟩
    · simp at h
      rcases h with h | h
      · exact absurd h.symm ha
      · rcases ih h with ⟨v, hv⟩
        exact ⟨v, by simp [alookup, ha, hv]⟩

theorem model_save_of_fitted (m : StatisticalAnomalyModel)
    (h : m.fitted = true) :
    m.save = Except.ok { threshold := m.threshold, mean := m.mean, std := m.std } := by
  unfold StatisticalAnomalyModel.save
  simp [h]

/-- Concrete shape of a successful `save_model`: the allocated-or-given
version, and the directory extended with its payload and metadata. -/
theorem save_model_eq_of_fitted (st : Storage) (k : String)
    (m : StatisticalAnomalyModel) (ver : Option String) (now : String)
    (h : m.fitted = true) :
    save_model st k m ver now =
      (Except.ok (ver.getD (generate_version (getDir st k))),
        setDir st k
          { bins := aset (getDir st k).bins
              (ver.getD (generate_version (getDir st k)))
              { threshold := m.threshold, mean := m.mean, std := m.std },
            metas := aset (getDir st k).metas
              (ver.getD (generate_version (getDir st k)))
              (MetaFile.parsed
                { series_id := k,
                  version := ver.getD (generate_version (getDir st k)),
                  model_type := m.get_model_type, saved_at := now }) }) := by
  unfold save_model
  simp [StatisticalAnomalyModel.is_fitted, h, model_save_of_fitted m h]

theorem filter_akeys_aset_invalid {α : Type} (l : AList α) (s : String)
    (p : α) (h : isVersionName s = false) :
    (akeys (aset l s p)).filter isVersionName =
      (akeys l).filter isVersionName := by
  by_cases hm : s ∈ akeys l
  · rw [akeys_aset_mem l s p hm]
  · rw [akeys_aset_not_mem l s p hm, List.filter_append]
    simp [List.filter, h]

theorem loadResolved_ok_version (d : SeriesDir) (v : String)
    (m2 : StatisticalAnomalyModel) (v2 : String)
    (h : loadResolved d v = Except.ok (m2, v2)) : v2 = v := by
  unfold loadResolved at h
  cases hmeta : alookup d.metas v with
  | none => rw [hmeta] at h; simp at h
  | some mf =>
    rw [hmeta] at h
    cases mf with
    | corrupt => simp at h
    | parsed md =>
      simp only [] at h
      cases hbin : alookup d.bins v with
      | none => rw [hbin] at h; simp at h
      | some payload =>
        rw [hbin] at h
        simp only [] at h
        cases hfac : modelFactoryCreate md.model_type with
        | error e => rw [hfac] at h; simp at h
        | ok m0 =>
          rw [hfac] at h
          simp at h
          exact h.2.symm

theorem load_model_none_version_mem (st : Storage) (k : String)
    (m2 : StatisticalAnomalyModel) (v2 : String)
    (h : load_model st k none = Except.ok (m2, v2)) :
    v2 ∈ list_versions st k := by
  unfold load_model resolveVersion at h
  cases hlast : (listVersionsAux (getDir st k)).getLast? with
  | none => rw [hlast] at h; simp at h
  | some w =>
    rw [hlast] at h
    simp at h
    have hw : w ∈ listVersionsAux (getDir st k) :=
      List.mem_of_getLast?_eq_some hlast
    rw [loadResolved_ok_version _ _ _ _ h]
    exact hw

/-- Loading the version a save just committed finds the freshly written
metadata and payload. -/
theorem loadResolved_saved (bins0 : AList SerializedModel)
    (metas0 : AList MetaFile) (g : String) (pay : SerializedModel)
    (md : Metadata) (htype : md.model_type = "statistical") :
    loadResolved
        (SeriesDir.mk (aset bins0 g pay)
          (aset metas0 g (MetaFile.parsed md))) g =
      Except.ok (StatisticalAnomalyModel.init.load pay, g) := by
  unfold loadResolved
  have h1 : (SeriesDir.mk (aset bins0 g pay)
      (aset metas0 g (MetaFile.parsed md))).metas =
      aset metas0 g (MetaFile.parsed md) := rfl
  rw [h1, alookup_aset_self]
  simp only []
  rw [alookup_aset_self]
  simp only []
  unfold modelFactoryCreate
  rw [htype]
  simp

/-- A series whose listed versions each carry parseable metadata tagged
with the embedded model variant — the state every successful
`save_model` produces. -/
def WellFormedSeries (st : Storage) (k : String) : Prop :=
  ∀ v ∈ list_versions st k,
    ∃ md, alookup (getDir st k).metas v = some (MetaFile.parsed md) ∧
      md.model_type = "statistical"

deriving instance DecidableEq for Except

/-! Concrete states used to witness the theorems. -/

def payA : SerializedModel := { threshold := 3, mean := some 10, std := some 2 }

def payB : SerializedModel := { threshold := 3, mean := some 20, std := some 5 }

def modelB : StatisticalAnomalyModel :=
  { threshold := 3, mean := some 20, std := some 5, fitted := true }

def modelUnfitted : StatisticalAnomalyModel :=
  { threshold := 3, mean := none, std := none, fitted := false }

def mdA : Metadata :=
  { series_id := "s1", version := "v0", model_type := "statistical",
    saved_at := "t0" }

def dirA : SeriesDir :=
  { bins := [("v0", payA)], metas := [("v0", MetaFile.parsed mdA)] }

def stA : Storage := { series := [("s1", dirA)] }

def stSaved : Storage := (save_model stA ("s1") modelB none ("t1")).2

def dirCorrupt : SeriesDir :=
  { bins := [("v0", payA)], metas := [("v0", MetaFile.corrupt)] }

def stCorrupt : Storage := { series := [("s1", dirCorrupt)] }

def stEmpty : Storage := { series := [] }

def tmpN : String := ".model_x7.tmp"

def pt0 : DataPoint := { timestamp := 0, value := 100 }

/-! The claims. -/

/-- C1: the version allocator returns the initial version `"v0"` when no
versions exist, and otherwise a version whose numeric part is the
maximum numeric part among existing versions plus one; hence each
successful auto-versioned save returns a version strictly greater than
every version previously committed for that key. -/
theorem claim_C1 :
    (∀ d : SeriesDir, listVersionsAux d = [] → generate_version d = "v0") ∧
    (∀ (d : SeriesDir) (h : listVersionsAux d ≠ []),
      versionNum (generate_version d) =
        versionNum ((listVersionsAux d).getLast h) + 1 ∧
      ∀ w ∈ listVersionsAux d,
        versionNum w ≤ versionNum ((listVersionsAux d).getLast h)) ∧
    (∀ (st : Storage) (k : String) (m : StatisticalAnomalyModel)
      (now v : String) (st2 : Storage),
      save_model st k m none now = (Except.ok v, st2) →
      ∀ w ∈ list_versions st k, versionNum w < versionNum v) := by
  refine ⟨generate_version_of_empty, ?_, ?_⟩
  · intro d h
    exact ⟨generate_version_num d h, versionNum_le_getLast d h⟩
  · intro st k m now v st2 hsave w hw
    cases hfm : m.fitted with
    | false =>
      unfold save_model at hsave
      simp [StatisticalAnomalyModel.is_fitted, hfm] at hsave
    | true =>
      rw [save_model_eq_of_fitted st k m none now hfm] at hsave
      have h1 := congrArg Prod.fst hsave
      simp at h1
      rw [← h1]
      exact generate_version_gt (getDir st k) w hw

/-- Witness for C1 at concrete inputs: the empty directory allocates
`"v0"`, a directory holding `v0` allocates `max + 1`, and the version
returned by a concrete auto-versioned save dominates the committed
`"v0"`. -/
theorem claim_C1_witness :
    generate_version emptyDir = "v0" ∧
    versionNum (generate_version dirA) =
      versionNum ((listVersionsAux dirA).getLast (by decide)) + 1 ∧
    versionNum ("v0") < versionNum ("v1") := by
  refine ⟨claim_C1.1 emptyDir (by decide),
    (claim_C1.2.1 dirA (by decide)).1, ?_⟩
  exact claim_C1.2.2 stA ("s1") modelB ("t1") ("v1") stSaved (by decide)
    ("v0") (by decide)

/-- C2: an atomic write that fails before the rename discards the
temporary file and leaves the whole directory — in particular the target
— exactly as it was; a successful one leaves the complete new content at
the target and every other location untouched. -/
theorem claim_C2 {α : Type} (dir : AList α) (tmpName target : String)
    (data : α) (h1 : tmpName ∉ akeys dir) (h2 : tmpName ≠ target) :
    atomic_write dir tmpName target data true = Except.error dir ∧
    ∃ dir2, atomic_write dir tmpName target data false = Except.ok dir2 ∧
      alookup dir2 target = some data ∧
      ∀ n, n ≠ target → alookup dir2 n = alookup dir n := by
  constructor
  · exact atomic_write_fail dir tmpName target data h1
  · rcases atomic_write_commits dir tmpName target data h1 h2 with
      ⟨dir2, hok, hpt⟩
    refine ⟨dir2, hok, ?_, ?_⟩
    · rw [hpt target, alookup_aset_self]
    · intro n hn
      rw [hpt n, alookup_aset_ne _ _ _ _ hn]

/-- Witness for C2: a concrete failed write onto a one-file directory
leaves it unchanged. -/
theorem claim_C2_witness :
    atomic_write dirA.bins tmpN ("v1") payB true = Except.error dirA.bins :=
  (claim_C2 dirA.bins tmpN ("v1") payB (by decide) (by decide)).1

/-- C3: saving a model whose fitted-check reports false fails with the
unfitted-model error before any durable mutation, so the version list of
the key is unchanged. -/
theorem claim_C3 (st : Storage) (k : String) (m : StatisticalAnomalyModel)
    (ver : Option String) (now : String) (h : m.is_fitted = false) :
    save_model st k m ver now =
      (Except.error StorageError.unfittedModel, st) ∧
    list_versions (save_model st k m ver now).2 k = list_versions st k := by
  have h1 : save_model st k m ver now =
      (Except.error StorageError.unfittedModel, st) := by
    unfold save_model
    simp [StatisticalAnomalyModel.is_fitted] at h
    simp [StatisticalAnomalyModel.is_fitted, h]
  exact ⟨h1, by rw [h1]⟩

/-- Witness for C3: a concrete unfitted save fails and leaves the state
unchanged. -/
theorem claim_C3_witness :
    save_model stA ("s1") modelUnfitted none ("t1") =
      (Except.error StorageError.unfittedModel, stA) :=
  (claim_C3 stA ("s1") modelUnfitted none ("t1") (by decide)).1

/-- C4: for a key with at least one committed (well-formed) version, a
version-omitted load resolves to the maximum element of the version list
under numeric ordering and returns that version alongside the model. -/
theorem claim_C4 (st : Storage) (k : String)
    (h : list_versions st k ≠ []) (hwf : WellFormedSeries st k) :
    ∃ m2, load_model st k none =
        Except.ok (m2, (list_versions st k).getLast h) ∧
      ∀ w ∈ list_versions st k,
        versionNum w ≤ versionNum ((list_versions st k).getLast h) := by
  have hlast : (listVersionsAux (getDir st k)).getLast? =
      some ((list_versions st k).getLast h) := List.getLast?_eq_getLast _ h
  have hmem : (list_versions st k).getLast h ∈ list_versions st k :=
    List.getLast_mem h
  rcases hwf _ hmem with ⟨md, hmeta, htype⟩
  have hbinkey : (list_versions st k).getLast h ∈ akeys (getDir st k).bins :=
    ((mem_listVersionsAux _ _).mp hmem).1
  rcases alookup_exists_of_mem_akeys _ _ hbinkey with ⟨payload, hbin⟩
  refine ⟨StatisticalAnomalyModel.init.load payload, ?_,
    versionNum_le_getLast _ h⟩
  have hres : resolveVersion (getDir st k) none =
      Except.ok ((list_versions st k).getLast h) := by
    unfold resolveVersion
    rw [hlast]
  have hfac : modelFactoryCreate md.model_type =
      Except.ok StatisticalAnomalyModel.init := by
    unfold modelFactoryCreate
    rw [htype]
    simp
  have hloaded : loadResolved (getDir st k) ((list_versions st k).getLast h) =
      Except.ok (StatisticalAnomalyModel.init.load payload,
        (list_versions st k).getLast h) := by
    unfold loadResolved
    rw [hmeta]
    simp only []
    rw [hbin]
    simp only []
    rw [hfac]
  unfold load_model
  rw [hres]
  exact hloaded

/-- Witness for C4 at a concrete one-version series: the resolved
version of the version-omitted load is `"v0"`. -/
theorem claim_C4_witness :
    Except.map Prod.snd (load_model stA ("s1") none) = Except.ok ("v0") := by
  have hwf : WellFormedSeries stA ("s1") := by
    intro v hv
    have hl : list_versions stA ("s1") = ["v0"] := by decide
    rw [hl] at hv
    simp at hv
    rw [hv]
    exact ⟨mdA, by decide, by decide⟩
  obtain ⟨m2, heq, _⟩ := claim_C4 stA ("s1") (by decide) hwf
  rw [heq]
  rfl

/-- C5: round trip — a fitted model saved and loaded back under the
returned version yields a model with identical `predict` output on every
data point. -/
theorem claim_C5 (st : Storage) (k : String) (m : StatisticalAnomalyModel)
    (now : String) (hf : m.is_fitted = true) (v : String) (st2 : Storage)
    (hsave : save_model st k m none now = (Except.ok v, st2)) :
    ∃ m2, load_model st2 k (some v) = Except.ok (m2, v) ∧
      ∀ p : DataPoint, m2.predict p = m.predict p := by
  have hfm : m.fitted = true := hf
  rw [save_model_eq_of_fitted st k m none now hfm] at hsave
  rw [Prod.ext_iff] at hsave
  obtain ⟨h1, h2⟩ := hsave
  simp at h1 h2
  have hv : v = generate_version (getDir st k) := h1.symm
  refine ⟨StatisticalAnomalyModel.init.load
    { threshold := m.threshold, mean := m.mean, std := m.std }, ?_,
    fun p => rfl⟩
  rw [hv, ← h2]
  unfold load_model
  rw [getDir_setDir_self]
  exact loadResolved_saved (getDir st k).bins (getDir st k).metas
    (generate_version (getDir st k))
    { threshold := m.threshold, mean := m.mean, std := m.std }
    { series_id := k, version := generate_version (getDir st k),
      model_type := m.get_model_type, saved_at := now } rfl

/-- Witness for C5: the concrete round trip through `stA` preserves the
prediction at a concrete data point. -/
theorem claim_C5_witness :
    Except.map (fun r => StatisticalAnomalyModel.predict r.1 pt0)
      (load_model stSaved ("s1") (some ("v1"))) =
    Except.ok (StatisticalAnomalyModel.predict modelB pt0) := by
  obtain ⟨m2, heq, hpred⟩ :=
    claim_C5 stA ("s1") modelB ("t1") (by decide) ("v1") stSaved (by decide)
  rw [heq]
  simp only [Except.map]
  rw [hpred pt0]

/-- Counterexample to C6 as stated: in a series holding `v0.bin` and a
corrupt `v0.meta.json`, loading `v0` fails with the corrupted-artifact
error, yet `v0` still appears in `list_versions`, which scans only the
`*.bin` file names — it is not excluded as the claim asserts. -/
theorem claim_C6_counterexample :
    load_model stCorrupt ("s1") (some ("v0")) =
      Except.error StorageError.corruptedMetadata ∧
    "v0" ∈ list_versions stCorrupt ("s1") := by
  constructor
  · decide
  · decide

/-- C6 (amended): for every key and version whose metadata file exists
but cannot be parsed, loading that version fails with the
corrupted-artifact error; the version nonetheless remains in
`list_versions`, which is computed from the payload file names alone,
whenever its payload file is present under a well-formed version name. -/
theorem claim_C6_amended (st : Storage) (k v : String)
    (hmeta : alookup (getDir st k).metas v = some MetaFile.corrupt) :
    load_model st k (some v) = Except.error StorageError.corruptedMetadata ∧
    (v ∈ akeys (getDir st k).bins → isVersionName v = true →
      v ∈ list_versions st k) := by
  constructor
  · unfold load_model resolveVersion
    simp only []
    unfold loadResolved
    rw [hmeta]
  · intro hbin hname
    exact (mem_listVersionsAux _ _).mpr ⟨hbin, hname⟩

/-- Witness for the amended C6 at the concrete corrupt series. -/
theorem claim_C6_amended_witness :
    load_model stCorrupt ("s1") (some ("v0")) =
      Except.error StorageError.corruptedMetadata ∧
    "v0" ∈ list_versions stCorrupt ("s1") := by
  have h := claim_C6_amended stCorrupt ("s1") ("v0") (by decide)
  exact ⟨h.1, h.2 (by decide) (by decide)⟩

/-- Counterexample to C7 as stated: versions are not immutable under
explicit-version saves — saving a different fitted model with the
already-committed explicit version `"v0"` succeeds and replaces the
stored payload. -/
theorem claim_C7_counterexample :
    (save_model stA ("s1") modelB (some ("v0")) ("t1")).1 =
      Except.ok ("v0") ∧
    alookup (getDir (save_model stA ("s1") modelB (some ("v0"))
      ("t1")).2 ("s1")).bins ("v0") = some payB ∧
    alookup (getDir stA ("s1")).bins ("v0") = some payA ∧
    payB ≠ payA := by
  refine ⟨by decide, by decide, by decide, by decide⟩

/-- C7 (amended): a committed, listed version is never changed by an
auto-versioned save to its key nor by any save to a different key; only
a save passing that version explicitly can overwrite it. -/
theorem claim_C7_amended :
    (∀ (st : Storage) (k : String) (m : StatisticalAnomalyModel)
      (now v : String) (st2 : Storage),
      save_model st k m none now = (Except.ok v, st2) →
      ∀ w ∈ list_versions st k,
        alookup (getDir st2 k).bins w = alookup (getDir st k).bins w ∧
        alookup (getDir st2 k).metas w = alookup (getDir st k).metas w) ∧
    (∀ (st : Storage) (k : String) (m : StatisticalAnomalyModel)
      (ver : Option String) (now : String)
      (res : Except StorageError String) (st2 : Storage) (k2 : String),
      save_model st k m ver now = (res, st2) → k2 ≠ k →
      getDir st2 k2 = getDir st k2) := by
  constructor
  · intro st k m now v st2 hsave w hw
    cases hfm : m.fitted with
    | false =>
      unfold save_model at hsave
      simp [StatisticalAnomalyModel.is_fitted, hfm] at hsave
    | true =>
      rw [save_model_eq_of_fitted st k m none now hfm] at hsave
      rw [Prod.ext_iff] at hsave
      obtain ⟨h1, h2⟩ := hsave
      simp at h1 h2
      have hlt : versionNum w < versionNum (generate_version (getDir st k)) :=
        generate_version_gt (getDir st k) w hw
      have hne : w ≠ generate_version (getDir st k) := by
        intro hweq
        rw [hweq] at hlt
        exact Nat.lt_irrefl _ hlt
      rw [← h2, getDir_setDir_self]
      constructor
      · exact alookup_aset_ne _ _ _ _ hne
      · exact alookup_aset_ne _ _ _ _ hne
  · intro st k m ver now res st2 k2 hsave hne
    unfold save_model at hsave
    by_cases hfm : m.is_fitted = false
    · simp [hfm] at hsave
      rw [← hsave.2]
    · simp [hfm] at hsave
      cases hs : m.save with
      | error e =>
        rw [hs] at hsave
        simp at hsave
        rw [← hsave.2]
      | ok payload =>
        rw [hs] at hsave
        simp only [] at hsave
        rw [Prod.ext_iff] at hsave
        obtain ⟨_, h2⟩ := hsave
        simp at h2
        rw [← h2]
        exact getDir_setDir_ne st k k2 _ hne

/-- Witness for the amended C7: after a concrete auto-versioned save the
payload committed under `"v0"` is unchanged. -/
theorem claim_C7_amended_witness :
    alookup (getDir stSaved ("s1")).bins ("v0") =
      alookup (getDir stA ("s1")).bins ("v0") :=
  (claim_C7_amended.1 stA ("s1") modelB ("t1") ("v1") stSaved (by decide)
    ("v0") (by decide)).1

/-- C8: loading a key with no committed versions fails with the
not-found error, and loading an explicit version absent from a key's
stored versions (no metadata file and no payload file for it) fails with
the not-found error. -/
theorem claim_C8 :
    (∀ (st : Storage) (k : String), list_versions st k = [] →
      load_model st k none = Except.error StorageError.notFound) ∧
    (∀ (st : Storage) (k v : String), list_versions st k ≠ [] →
      alookup (getDir st k).metas v = none →
      alookup (getDir st k).bins v = none →
      load_model st k (some v) = Except.error StorageError.notFound) := by
  constructor
  · intro st k h
    unfold list_versions at h
    unfold load_model resolveVersion
    rw [h]
    simp only [List.getLast?_nil]
  · intro st k v _hne hmeta _hbin
    unfold load_model resolveVersion
    simp only []
    unfold loadResolved
    rw [hmeta]

/-- Witness for C8: the concrete missing-key and missing-version loads
fail with the not-found error. -/
theorem claim_C8_witness :
    load_model stEmpty ("missing-key") none =
      Except.error StorageError.notFound ∧
    load_model stA ("s1") (some ("v99")) =
      Except.error StorageError.notFound := by
  constructor
  · exact claim_C8.1 stEmpty ("missing-key") (by decide)
  · exact claim_C8.2 stA ("s1") ("v99") (by decide) (by decide) (by decide)

/-- C9: the existence check never raises — an injected failure of any
class its `except` clause catches yields the boolean `false`, and a
normally returning body yields its boolean. -/
theorem claim_C9 (st : Storage) (k : String) (version : Option String) :
    (∀ e : IOFailure,
      model_exists_body st k version (some e) = Except.error e ∧
      model_exists st k version (some e) = false) ∧
    (∀ b : Bool, model_exists_body st k version none = Except.ok b →
      model_exists st k version none = b) := by
  constructor
  · intro e
    exact ⟨rfl, rfl⟩
  · intro b hb
    unfold model_exists
    rw [hb]

/-- Witness for C9: a concrete injected lock timeout yields `false`, and
the same check without failure yields `true`. -/
theorem claim_C9_witness :
    model_exists stA ("s1") none (some IOFailure.lockTimeout) = false ∧
    model_exists stA ("s1") none none = true := by
  constructor
  · exact ((claim_C9 stA ("s1") none).1 IOFailure.lockTimeout).2
  · exact (claim_C9 stA ("s1") none).2 true (by decide)

theorem listVersionsAux_aset_invalid (bins0 : AList SerializedModel)
    (m1 : AList MetaFile) (s : String) (p : SerializedModel)
    (h : isVersionName s = false) :
    listVersionsAux (SeriesDir.mk (aset bins0 s p) m1) =
      List.insertionSort versionLe ((akeys bins0).filter isVersionName) := by
  unfold listVersionsAux
  rw [show (SeriesDir.mk (aset bins0 s p) m1).bins = aset bins0 s p from rfl]
  rw [filter_akeys_aset_invalid bins0 s p h]

/-- C10: every version in `list_versions` matches `v<digits>`; a save
passing an explicit version not of this form succeeds and returns it,
but the artifact never appears in `list_versions`, is never resolved as
the latest version, and is unreachable by a version-omitted load. -/
theorem claim_C10 :
    (∀ (st : Storage) (k v : String), v ∈ list_versions st k →
      isVersionName v = true) ∧
    (∀ (st : Storage) (k : String) (m : StatisticalAnomalyModel)
      (now s : String), isVersionName s = false → m.is_fitted = true →
      (save_model st k m (some s) now).1 = Except.ok s ∧
      list_versions (save_model st k m (some s) now).2 k =
        list_versions st k ∧
      s ∉ list_versions (save_model st k m (some s) now).2 k ∧
      get_latest_version (save_model st k m (some s) now).2 k ≠ some s ∧
      (∀ (m2 : StatisticalAnomalyModel) (v2 : String),
        load_model (save_model st k m (some s) now).2 k none =
          Except.ok (m2, v2) → v2 ≠ s)) := by
  constructor
  · intro st k v hv
    exact isVersionName_of_mem_listVersionsAux _ _ hv
  · intro st k m now s hsname hf
    have hfm : m.fitted = true := hf
    have heq := save_model_eq_of_fitted st k m (some s) now hfm
    simp only [Option.getD_some] at heq
    rw [heq]
    have hlist : list_versions (setDir st k
        (SeriesDir.mk
          (aset (getDir st k).bins s
            { threshold := m.threshold, mean := m.mean, std := m.std })
          (aset (getDir st k).metas s
            (MetaFile.parsed
              { series_id := k, version := s,
                model_type := m.get_model_type, saved_at := now })))) k =
        list_versions st k := by
      unfold list_versions
      rw [getDir_setDir_self]
      rw [listVersionsAux_aset_invalid _ _ _ _ hsname]
      rfl
    have hnotmem : s ∉ list_versions st k := by
      intro hmem
      have htrue := isVersionName_of_mem_listVersionsAux _ _ hmem
      rw [htrue] at hsname
      simp at hsname
    refine ⟨rfl, hlist, ?_, ?_, ?_⟩
    · rw [show (Except.ok s, setDir st k
        (SeriesDir.mk
          (aset (getDir st k).bins s
            { threshold := m.threshold, mean := m.mean, std := m.std })
          (aset (getDir st k).metas s
            (MetaFile.parsed
              { series_id := k, version := s,
                model_type := m.get_model_type, saved_at := now })))).2 =
        setDir st k
        (SeriesDir.mk
          (aset (getDir st k).bins s
            { threshold := m.threshold, mean := m.mean, std := m.std })
          (aset (getDir st k).metas s
            (MetaFile.parsed
              { series_id := k, version := s,
                model_type := m.get_model_type, saved_at := now }))) from rfl,
        hlist]
      exact hnotmem
    · unfold get_latest_version
      intro hsome
      have hmem := List.mem_of_getLast?_eq_some hsome
      rw [hlist] at hmem
      exact hnotmem hmem
    · intro m2 v2 hload hv2s
      have hmem := load_model_none_version_mem _ _ _ _ hload
      rw [hlist] at hmem
      rw [hv2s] at hmem
      exact hnotmem hmem

/-- Witness for C10: a concrete explicit save of version "final"
succeeds, and "final" is absent from the version list afterwards. -/
theorem claim_C10_witness :
    isVersionName ("v0") = true ∧
    (save_model stA ("s1") modelB (some ("final")) ("t1")).1 =
      Except.ok ("final") ∧
    "final" ∉ list_versions
      (save_model stA ("s1") modelB (some ("final")) ("t1")).2 ("s1") := by
  refine ⟨claim_C10.1 stA ("s1") ("v0") (by decide), ?_, ?_⟩
  · exact (claim_C10.2 stA ("s1") modelB ("t1") ("final") (by decide)
      (by decide)).1
  · exact (claim_C10.2 stA ("s1") modelB ("t1") ("final") (by decide)
      (by decide)).2.2.1

end ApiTrct
